import Mathlib

/-!
Verification development for the AT-AT project-bootstrap CLI.

The definitions below are a shallow embedding of the JavaScript sources:

* `src/bin/utils/pkg.js`      — package-manager registry and availability checks
* `src/bin/utils/fileUtils.js`— exclusion-aware recursive copy (`src/unnamed/part_001`)
* `src/bin/vcs/git.js`        — local git helpers
* `src/bin/vcs/github.js`     — GitHub linkage state machine and the Netlify driver
* `src/bin/deployment/cloudflare.js` — the Cloudflare Pages driver
* `src/bin/cli.js`            — the top-level orchestrator `main`

External effects (child-process invocations, prompts, the file system) are
modelled by explicit oracle parameters, and each effectful function returns
the list of `Event`s it performed together with a `ProcResult` describing
how control left the function (normal return, `process.exit`, or a thrown
exception).
-/

/-- Package-manager identifiers supported by the CLI (cli.js prompt choices). -/
inductive PM where
  | npm
  | pnpm
  | yarn
  | bun
deriving DecidableEq, Repr

/-- The command set of one package manager (pkg.js `packageManagerCommands` entries). -/
structure PMCommands where
  install : String
  run : String
  build : String
  dev : String
  list : String
  add : String
  globalAdd : String
  globalList : String
  remove : String
deriving DecidableEq, Repr

/-- pkg.js `packageManagerCommands`: the static registry mapping each manager to its commands. -/
def packageManagerCommands : PM → PMCommands
  | PM.npm =>
    { install := "npm install", run := "npm run", build := "npm run build", dev := "npm run dev",
      list := "npm list", add := "npm install", globalAdd := "npm install -g",
      globalList := "npm list -g", remove := "npm uninstall" }
  | PM.pnpm =>
    { install := "pnpm install", run := "pnpm run", build := "pnpm run build", dev := "pnpm run dev",
      list := "pnpm list", add := "pnpm add", globalAdd := "pnpm add -g",
      globalList := "pnpm list -g", remove := "pnpm remove" }
  | PM.yarn =>
    { install := "yarn", run := "yarn", build := "yarn build", dev := "yarn dev",
      list := "yarn list", add := "yarn add", globalAdd := "yarn global add",
      globalList := "yarn global list", remove := "yarn remove" }
  | PM.bun =>
    { install := "bun install", run := "bun run", build := "bun build", dev := "bun run dev",
      list := "bun list", add := "bun add", globalAdd := "bun add --global",
      globalList := "bun list --global", remove := "bun remove" }

/-- The display name of a package manager, as interpolated into log messages. -/
def pmName : PM → String
  | PM.npm => "npm"
  | PM.pnpm => "pnpm"
  | PM.yarn => "yarn"
  | PM.bun => "bun"

/-- Character-list test: does the second list start with the first? -/
def listIsPreOf : List Char → List Char → Bool
  | [], _ => true
  | _ :: _, [] => false
  | c :: cs, d :: ds => c == d && listIsPreOf cs ds

/-- Substring occurrence over character lists (haystack first, needle second). -/
def listHasSub : List Char → List Char → Bool
  | hay, needle =>
    if listIsPreOf needle hay then true
    else match hay with
      | [] => false
      | _ :: cs => listHasSub cs needle

/-- JavaScript `String.prototype.includes`, as substring occurrence. -/
def jsIncludes (s sub : String) : Bool :=
  listHasSub s.data sub.data

/-- The remainder of the haystack after the first occurrence of the needle;
`none` when the needle does not occur.  This is the tail part that JavaScript
`s.split(sep)[1]` starts from. -/
def afterFirst : List Char → List Char → Option (List Char)
  | hay, needle =>
    if listIsPreOf needle hay then some (hay.drop needle.length)
    else match hay with
      | [] => none
      | _ :: cs => afterFirst cs needle

/-- The haystack up to (excluding) the first occurrence of the needle, or the
whole haystack when the needle does not occur.  Together with `afterFirst` this
models JavaScript `s.split(sep)[1]` as `upToFirst (afterFirst s sep) sep`. -/
def upToFirst : List Char → List Char → List Char
  | hay, needle =>
    if listIsPreOf needle hay then []
    else match hay with
      | [] => []
      | c :: cs => c :: upToFirst cs needle

/-- JavaScript `String.prototype.trim` over character lists. -/
def charTrim (cs : List Char) : List Char :=
  ((cs.dropWhile Char.isWhitespace).reverse.dropWhile Char.isWhitespace).reverse

/-- The body of pkg.js `isCommandAvailable` before its `catch`: runs the command
(the oracle `execRes` is the captured result of `execSync`), then applies the
global-list special handling.  `command.split("-g")[1]` is `undefined` when the
command has no `"-g"` token, so the subsequent `.trim()` throws a `TypeError`,
modelled by the `Except.error` branch. -/
def isCommandAvailableBody (command : String) (execRes : Except String String) :
    Except String Bool :=
  match execRes with
  | Except.error e => Except.error e
  | Except.ok output =>
    if jsIncludes command "npm list -g" || jsIncludes command "pnpm list -g" ||
        jsIncludes command "yarn global list" then
      match afterFirst command.data "-g".data with
      | none => Except.error "TypeError: Cannot read properties of undefined (reading trim)"
      | some seg =>
        let pkgNm := charTrim (upToFirst seg "-g".data)
        if !(listHasSub output.data pkgNm) then Except.ok false
        else Except.ok true
    else Except.ok true

/-- pkg.js `isCommandAvailable`: the whole body runs inside `try ... catch`, and
any failure (of the invoked command or of the special handling) yields `false`. -/
def isCommandAvailable (command : String) (execRes : Except String String) : Bool :=
  match isCommandAvailableBody command execRes with
  | Except.ok b => b
  | Except.error _ => false

/-- pkg.js `isPackageManagerInstalled`: runs `<pm> --version` (oracle
`versionExec`) and succeeds iff it exits zero. -/
def isPackageManagerInstalled (versionExec : Except String String) : Bool :=
  match versionExec with
  | Except.ok _ => true
  | Except.error _ => false

/-- Filesystem paths, modelled structurally as the list of segments that
`path.join` concatenates. -/
abbrev FilePath2 := List String

/-- A JSON value of the parsed manifest.  String values are the only values the
personalization code ever constructs or inspects; every other JSON shape
(objects, arrays, numbers, ...) is carried opaquely as a tagged `node`, since
the code only moves or deletes such values wholesale. -/
inductive JsonVal where
  | str (s : String)
  | node (tag : Nat)
deriving DecidableEq, Repr

/-- A parsed `package.json` object: an insertion-ordered association list of
fields, mirroring JavaScript object key order. -/
abbrev Manifest := List (String × JsonVal)

/-- The observable effects performed by the embedded functions. -/
inductive Event where
  | exec (cmd : String) (cwd : Option FilePath2)
  | logInfo (msg : String)
  | logError (msg : String)
  | logWarn (msg : String)
  | prompt (question : String)
  | fsWrite (path : FilePath2) (content : String)
  | fsWriteJson (path : FilePath2) (data : List (String × JsonVal))
  | fsRead (path : FilePath2)
  | fsRename (src dest : FilePath2)
  | fsDeleteDir (path : FilePath2)
  | fsCopyTemplate (src dest : FilePath2)
  | fsMkdir (path : FilePath2)
  | fsUnlink (path : FilePath2)
  | welcome
deriving DecidableEq, Repr

/-- How control left an embedded function: a normal return, a `process.exit`,
or an exception that propagated out of the function. -/
inductive ProcResult (α : Type) where
  | ok (a : α)
  | exited (code : Nat)
  | threw (msg : String)
deriving DecidableEq, Repr

/-- The bootstrap command pkg.js uses to auto-install a non-primary manager
(the `installers` table; the `npm` entry is a documentation URL, not a command). -/
def installers : PM → String
  | PM.npm => "https://www.npmjs.com/get-npm"
  | PM.pnpm => "npm install -g pnpm"
  | PM.yarn => "npm install -g yarn"
  | PM.bun => "npm install -g bun"

/-- pkg.js `ensurePackageManagerInstalled`.  Oracles: `versionExec` is the
result of the `--version` probe, `installExecOk` whether the bootstrap install
command exits zero.  Faithful detail: in the `npm` branch the source calls
`error(...)`, an identifier that is not defined anywhere in pkg.js (only `log`
is imported), so reaching that branch throws a `ReferenceError` that propagates
to the caller. -/
def ensurePackageManagerInstalled (pm : PM) (versionExec : Except String String)
    (installExecOk : Bool) : List Event × ProcResult Unit :=
  if isPackageManagerInstalled versionExec then ([], ProcResult.ok ())
  else
    let evs := [Event.logInfo ("The selected package manager " ++ pmName pm ++
      " is not installed. Attempting to install...")]
    if pm = PM.npm then
      (evs, ProcResult.threw "ReferenceError: error is not defined")
    else
      let evs := evs ++ [Event.logInfo (installers pm), Event.exec (installers pm) none]
      if installExecOk then
        (evs ++ [Event.logInfo (pmName pm ++ " has been installed successfully.")],
          ProcResult.ok ())
      else
        (evs ++ [Event.logError ("Failed to install " ++ pmName pm ++
          ". Please install it manually and rerun the script.")], ProcResult.ok ())

example : isCommandAvailable "yarn global list wrangler" (Except.ok "whatever") = false := by
  decide

example : isCommandAvailable "npm list -g netlify-cli" (Except.ok "netlify-cli 17.0.0") = true := by
  decide

example : isCommandAvailable "npm list -g netlify-cli" (Except.ok "empty") = false := by
  decide

example : isCommandAvailable "gh" (Except.error "not found") = false := by
  decide

/-- Oracles for github.js `getGitHubUsername`: the captured result of
`gh api user` (already JSON-parsed to the login on success), whether the user
chooses "Authenticate now" at the prompt, and the result of the second
`gh api user` after `gh auth login`. -/
structure UserEnv where
  apiUser : Except String String
  authChoice : Bool
  authApiUser : Except String String
deriving Repr

/-- github.js `getGitHubUsername`: returns the login, or `none` (JavaScript
`null`) when the user continues unauthenticated or the login flow fails.
Every failure is caught inside the function. -/
def getGitHubUsername (env : UserEnv) : List Event × Option String :=
  match env.apiUser with
  | Except.ok login => ([Event.exec "gh api user" none], some login)
  | Except.error _ =>
    let evs := [Event.exec "gh api user" none,
      Event.logError "Failed to retrieve GitHub username. You may not be authenticated with the GitHub CLI.",
      Event.prompt "You are not authenticated with the GitHub CLI. What would you like to do?"]
    if env.authChoice then
      match env.authApiUser with
      | Except.ok login =>
        (evs ++ [Event.exec "gh auth login" none, Event.exec "gh api user" none], some login)
      | Except.error _ =>
        (evs ++ [Event.exec "gh auth login" none, Event.exec "gh api user" none,
          Event.logError "Failed to authenticate with GitHub CLI:"], none)
    else
      (evs ++ [Event.logWarn "Continuing without GitHub CLI authentication."], none)

/-- JavaScript template-literal interpolation of a possibly-`null` username:
`null` prints as the string `null`. -/
def showUser : Option String → String
  | none => "null"
  | some s => s

/-- github.js `createGitHubRepo`: `while (!success)` loop that runs
`gh repo create <name> --public`, and on failure prompts for a replacement name
(the inquirer default is `<name>-retry`) and retries.  The loop is unbounded in
the source; `fuel` bounds the embedding, with `none` meaning the fuel ran out
before a creation succeeded.  The oracle `createOk` tells which names create
successfully and `answers` are the user-resubmitted names.  Note that the
source function returns `undefined`: the finally-successful name is dropped. -/
def createGitHubRepo : Nat → String → (String → Bool) → List String → Option (List Event)
  | 0, _, _, _ => none
  | Nat.succ fuel, packageName, createOk, answers =>
    let evs := [Event.logInfo ("Creating the public repo " ++ packageName ++ " on GitHub..."),
      Event.exec ("gh repo create " ++ packageName ++ " --public") none]
    if createOk packageName then some evs
    else
      let evs := evs ++ [Event.logError "Failed to create the repo:",
        Event.prompt "Enter a new repository name:"]
      let newName := answers.headD (packageName ++ "-retry")
      match createGitHubRepo fuel newName createOk answers.tail with
      | none => none
      | some more => some (evs ++ more)

/-- The synchronous prefix of `createGitHubRepo`.  github.js `pushToGitHub`
calls the async `createGitHubRepo(packageName)` WITHOUT `await`, so only the
code up to the first suspension point runs before the retry push: one
`gh repo create` attempt, plus the `console.error` when it fails (the
re-prompt inside the loop is suspended and never blocks the push retry). -/
def createGitHubRepoSyncEvents (packageName : String) (createOk : String → Bool) : List Event :=
  let evs := [Event.logInfo ("Creating the public repo " ++ packageName ++ " on GitHub..."),
    Event.exec ("gh repo create " ++ packageName ++ " --public") none]
  if createOk packageName then evs
  else evs ++ [Event.logError "Failed to create the repo:"]

/-- github.js `isRepoConnectedToGitHub`: reads `remote.origin.url` (oracle) and
checks it mentions github.com; any error yields `false`. -/
def isRepoConnectedToGitHub (remoteOriginUrl : Except String String) : Bool :=
  match remoteOriginUrl with
  | Except.ok url => jsIncludes url "github.com"
  | Except.error _ => false

/-- github.js `pushToGitHub`.  Oracles: `pushOk i` is the exit status of the
i-th `git push -u origin main` attempt, `createOk` feeds the un-awaited
creation fallback, `confirmContinue` the final confirm prompt.  Control flow,
faithful to the source: first push; on failure, one (synchronous) creation
attempt and a second push; if that also fails, prompt — declining exits the
process with code 1, accepting returns `false`; every successful push falls
through to `return true`. -/
def pushToGitHub (packageName : String) (destination : FilePath2) (pushOk : Nat → Bool)
    (createOk : String → Bool) (confirmContinue : Bool) : List Event × ProcResult Bool :=
  let pushEv := Event.exec "git push -u origin main" (some destination)
  if pushOk 0 then ([pushEv], ProcResult.ok true)
  else
    let evs := [pushEv, Event.logError "Failed to push to GitHub:"] ++
      createGitHubRepoSyncEvents packageName createOk ++ [pushEv]
    if pushOk 1 then (evs, ProcResult.ok true)
    else
      let evs := evs ++ [Event.logError "Failed to create repository and push:",
        Event.prompt "Failed to push changes to github, do you want to continue anyway?"]
      if confirmContinue then (evs, ProcResult.ok false)
      else (evs ++ [Event.logInfo "Aborted. Exiting..."], ProcResult.exited 1)

/-- Oracles for github.js `ensureConnectedToGitHub` and everything it calls. -/
structure GitHubEnv where
  /-- git.js `isGitRepo`: does `git status` succeed (note: probed in the
  process working directory, not in `destination`). -/
  isGitRepo : Bool
  /-- captured `git config --get remote.origin.url` in `destination`. -/
  remoteOriginUrl : Except String String
  /-- captured result of the bare command `gh` for `isCommandAvailable "gh"`. -/
  ghExec : Except String String
  /-- prompt when the GitHub CLI is missing: `true` = "Exit the CLI". -/
  ghMissingExit : Bool
  /-- which repository names `gh repo create` accepts. -/
  createOk : String → Bool
  /-- user-resubmitted repository names for the collision re-prompt. -/
  repoNameAnswers : List String
  userEnv : UserEnv
  /-- does `git remote get-url origin` succeed in `destination`. -/
  originExists : Bool
  /-- exit status of the i-th `git push -u origin main`. -/
  pushOk : Nat → Bool
  /-- answer to the continue-despite-failed-push confirm. -/
  confirmContinue : Bool

/-- github.js `ensureConnectedToGitHub`, lines 193–210: the common tail run
whether or not a repository had to be created — stage and commit (allowing
empty), resolve the username, add the `origin` remote pointing at
`https://github.com/<username>/<packageName>.git` when missing (note: built
from THIS function's `packageName` parameter), then push via `pushToGitHub`. -/
def ensureConnectedTail (packageName : String) (destination : FilePath2)
    (env : GitHubEnv) : List Event × ProcResult Bool :=
  let evs := [Event.logInfo "Pushing all local changes to github.",
    Event.exec "git add ." (some destination),
    Event.exec "git commit -m \"Initial commit\" --allow-empty" (some destination)]
  let u := getGitHubUsername env.userEnv
  let evs := evs ++ u.1 ++ [Event.logInfo "Searching for the origin repo.",
    Event.exec "git remote get-url origin" (some destination)]
  let evs := if env.originExists then evs
    else evs ++ [Event.logInfo ("Adding the origin repo. to https://github.com/" ++
        showUser u.2 ++ "/" ++ packageName ++ ".git"),
      Event.exec ("git remote add origin https://github.com/" ++ showUser u.2 ++ "/" ++
        packageName ++ ".git") (some destination)]
  let p := pushToGitHub packageName destination env.pushOk env.createOk env.confirmContinue
  (evs ++ p.1, p.2)

/-- github.js `ensureConnectedToGitHub`: init the repo if needed, create the
remote repository when not yet connected (prompting to exit/continue when the
`gh` CLI is missing), then run the staging/username/remote/push tail.
`fuel` bounds the unbounded name-collision retry loop; `none` means the fuel
ran out. -/
def ensureConnectedToGitHub (fuel : Nat) (packageName : String) (destination : FilePath2)
    (env : GitHubEnv) : Option (List Event × ProcResult Bool) :=
  let evs := if env.isGitRepo then ([] : List Event)
    else [Event.logError "This directory is not a Git repository. Initializing it as one.",
      Event.exec "git init" (some destination)]
  let connected := isRepoConnectedToGitHub env.remoteOriginUrl
  let step :=
    if connected then some (Except.ok evs)
    else
      let evs := evs ++ [Event.logInfo "This repository is not connected to GitHub."]
      if !(isCommandAvailable "gh" env.ghExec) then
        let evs := evs ++
          [Event.prompt "GitHub CLI (gh) is not installed but is required for certain operations. What would you like to do?"]
        if env.ghMissingExit then
          some (Except.error (evs ++ [Event.logInfo "Exiting CLI. Please install GitHub CLI and run again."],
            ProcResult.exited 0))
        else some (Except.error (evs, ProcResult.ok false))
      else
        match createGitHubRepo fuel packageName env.createOk env.repoNameAnswers with
        | none => none
        | some cEvs => some (Except.ok (evs ++ cEvs))
  match step with
  | none => none
  | some (Except.error r) => some r
  | some (Except.ok evs) =>
    let t := ensureConnectedTail packageName destination env
    some (evs ++ t.1, t.2)

/-- Renders a structural path the way `path.join` renders it into messages. -/
def pathStr (p : FilePath2) : String :=
  String.intercalate "/" p

/-- netlify.js `generateNetlifyToml` file content (the template literal,
trimmed, with a trailing newline), for the selected package manager. -/
def netlifyToml (pm : PM) : String :=
  "[build]\n  command = \"" ++ (packageManagerCommands pm).build ++
  "\"\n  functions = \"netlify/functions\"\n  publish = \"dist\"\n" ++
  "[build.environment]\n  PNPM_FLAGS = \"--no-frozen-lockfile\"\n" ++
  "  YARN_FLAGS = \"--ignore-engines --no-lockfile\"\n  NPM_FLAGS = \"--no-package-lock\"\n"

/-- netlify.js `ensureNetlifyCLI`: checks `<list> -g netlify-cli` through
`isCommandAvailable` (oracle `listExec` is the captured exec result) and
installs netlify-cli globally when missing.  The global install runs outside
any `try`, so its failure (`globalAddOk = false`) throws past this function. -/
def ensureNetlifyCLI (pm : PM) (listExec : Except String String) (globalAddOk : Bool) :
    List Event × ProcResult Unit :=
  if !(isCommandAvailable ((packageManagerCommands pm).list ++ " -g netlify-cli") listExec) then
    let evs := [Event.logInfo ("netlify-cli is not installed. Installing using " ++ pmName pm ++ "..."),
      Event.exec ((packageManagerCommands pm).globalAdd ++ " netlify-cli") none]
    if globalAddOk then
      (evs ++ [Event.logInfo "netlify-cli installed successfully."], ProcResult.ok ())
    else (evs, ProcResult.threw "Error: failed to install netlify-cli globally")
  else ([Event.logInfo "netlify-cli is already installed."], ProcResult.ok ())

/-- The fixed text that precedes the enum value in the `HOSTING_SERVICE`
assignment matched by netlify.js (the regex up to its `"[^"]+"` group). -/
def hostingHead : String :=
  "export const HOSTING_SERVICE: \"cloudflare\" | \"netlify\" | \"none\" = \""

/-- The full replacement assignment written by the driver for a given target. -/
def hostingAssign (target : String) : String :=
  hostingHead ++ target ++ "\";"

/-- Strips the first list (a pattern of literal characters) off the front of
the second; `none` when the second does not start with it. -/
def stripPre : List Char → List Char → Option (List Char)
  | [], cs => some cs
  | _ :: _, [] => none
  | p :: ps, c :: cs => if c == p then stripPre ps cs else none

/-- After the opening quote of the enum value: consume the remaining characters
of `"[^"]+";` — at least one non-quote character, then the closing quote and
semicolon — returning the remainder, or `none` when the text at this position
does not complete the pattern. -/
def valMid : List Char → Option (List Char)
  | [] => none
  | c :: cs =>
    if c == '"' then
      match cs with
      | d :: rest => if d == ';' then some rest else none
      | [] => none
    else valMid cs

/-- `"[^"]+";` needs at least one non-quote character before `valMid` scans. -/
def valTail : List Char → Option (List Char)
  | [] => none
  | c :: cs => if c == '"' then none else valMid cs

/-- First match of the netlify.js `HOSTING_SERVICE` regex in the character
list: returns the text before the match and the text after it. -/
def findHosting : List Char → Option (List Char × List Char)
  | [] => none
  | c :: cs =>
    match (stripPre hostingHead.data (c :: cs)).bind valTail with
    | some rem => some ([], rem)
    | none =>
      match findHosting cs with
      | none => none
      | some pr => some (c :: pr.1, pr.2)

/-- The `content.replace(regex, ...)` call of the drivers: a literal textual
substitution of the first matched assignment; when the pattern is absent the
content is returned unchanged. -/
def replaceHostingService (content target : String) : String :=
  match findHosting content.data with
  | none => content
  | some pr => String.mk (pr.1 ++ (hostingAssign target).data ++ pr.2)

/-- Oracles for netlify.js `deployToNetlify`. -/
structure NetlifyEnv where
  /-- captured result of `<list> -g netlify-cli`. -/
  listExec : Except String String
  /-- does the global netlify-cli install exit zero. -/
  globalAddOk : Bool
  /-- does `deleteDirectoryRecursive(functions)` succeed (failure is caught). -/
  deleteFunctionsOk : Bool
  ghEnv : GitHubEnv
  /-- does `netlify init` exit zero. -/
  initOk : Bool
  /-- manual branch: do install / build / deploy exit zero. -/
  installOk : Bool
  buildOk : Bool
  deployOk : Bool
  /-- result of reading `<destination>/src/consts.ts`. -/
  constsRead : Except String String

/-- The deploy-mode branch of `deployToNetlify` (both arms catch their own
failures, so this part never throws). -/
def netlifyBranchEvents (pm : PM) (destination : FilePath2) (connected : Bool)
    (env : NetlifyEnv) : List Event :=
  if connected then
    [Event.exec "netlify init" (some destination)] ++
    (if env.initOk then [Event.logInfo "Continuous deployment to Netlify set up successfully."]
     else [Event.logError "Failed to set up continuous deployment to Netlify:"])
  else
    [Event.logInfo ("Starting packages installation and build on " ++ pathStr destination),
      Event.exec (packageManagerCommands pm).install (some destination)] ++
    (if !env.installOk then [Event.logError "Failed to deploy to Netlify:"]
     else
      [Event.exec (packageManagerCommands pm).build (some destination)] ++
      (if !env.buildOk then [Event.logError "Failed to deploy to Netlify:"]
       else
        [Event.logInfo "Installation and build completed successfully. Starting netlify deployment...",
          Event.exec "netlify deploy --prod" (some destination)] ++
        (if env.deployOk then [Event.logInfo "Deployment to Netlify completed successfully."]
         else [Event.logError "Failed to deploy to Netlify:"])))

/-- netlify.js `deployToNetlify`: generate netlify.toml, best-effort removal of
the `functions` subtree, ensure netlify-cli, ensure GitHub linkage, branch
between continuous setup and manual deploy, then rewrite the
`HOSTING_SERVICE` constant in `<destination>/src/consts.ts`.  The final
read-modify-write of consts.ts is NOT wrapped in try/catch in the source, so a
failing read (`constsRead = error`) throws past the driver boundary.  `fuel`
bounds the repository-name retry loop; `none` means it ran out. -/
def deployToNetlify (fuel : Nat) (pm : PM) (packageName : String) (destination : FilePath2)
    (env : NetlifyEnv) : Option (List Event × ProcResult Unit) :=
  let tomlPath := destination ++ ["netlify.toml"]
  let evs := [Event.logInfo "Deploying to Netlify...",
    Event.fsWrite tomlPath (netlifyToml pm),
    Event.logInfo ("Generated netlify.toml at " ++ pathStr tomlPath),
    Event.logInfo ("Removing functions directory from " ++ pathStr destination ++
      " as is only needed for cloudflare pages."),
    Event.fsDeleteDir (destination ++ ["functions"])]
  let evs := if env.deleteFunctionsOk then evs
    else evs ++ [Event.logError ("Failed to remove functions directory from " ++
      pathStr destination ++ ":")]
  let evs := evs ++ [Event.logInfo "Making sure that netlify cli is installed."]
  let n := ensureNetlifyCLI pm env.listExec env.globalAddOk
  let evs := evs ++ n.1
  match n.2 with
  | ProcResult.threw m => some (evs, ProcResult.threw m)
  | ProcResult.exited c => some (evs, ProcResult.exited c)
  | ProcResult.ok _ =>
    let evs := evs ++ [Event.logInfo "Check github connection and create github repo if needed."]
    match ensureConnectedToGitHub fuel packageName destination env.ghEnv with
    | none => none
    | some (gevs, ProcResult.exited c) => some (evs ++ gevs, ProcResult.exited c)
    | some (gevs, ProcResult.threw m) => some (evs ++ gevs, ProcResult.threw m)
    | some (gevs, ProcResult.ok connected) =>
      let evs := evs ++ gevs ++
        [Event.logInfo "Starting netlify deployment, it could take some seconds."] ++
        netlifyBranchEvents pm destination connected env
      let constsPath := destination ++ ["src", "consts.ts"]
      let evs := evs ++ [Event.fsRead constsPath]
      match env.constsRead with
      | Except.error e => some (evs, ProcResult.threw e)
      | Except.ok content =>
        some (evs ++ [Event.fsWrite constsPath (replaceHostingService content "netlify"),
          Event.logInfo "Updated HOSTING_SERVICE value to netlify in src/consts.ts"],
          ProcResult.ok ())

/-- cloudflare.js `ensureWranglerCLI`.  The source of cloudflare.js never
imports `isCommandAvailable` (its imports are `execSync`,
`packageManagerCommands`, `ensureConnectedToGitHub` and `log`), so the very
first statement `if (!isCommandAvailable(...))` evaluates an unresolvable
identifier and throws `ReferenceError: isCommandAvailable is not defined` on
every call, before any other effect.  (Independently, `deployToCloudflare`
calls this function with no argument, so `selectedPackageManager` would be
`undefined` inside it — hence the `Option PM` parameter.)  The rest of the
body is unreachable on every invocation. -/
def ensureWranglerCLI (_pm : Option PM) : List Event × ProcResult Unit :=
  ([], ProcResult.threw "ReferenceError: isCommandAvailable is not defined")

/-- Oracles for cloudflare.js `deployToCloudflare` (all of them feed code that
is unreachable behind the always-throwing `ensureWranglerCLI`). -/
structure CloudflareEnv where
  ghEnv : GitHubEnv
  /-- does `wrangler pages project create` exit zero. -/
  projectCreateOk : Bool
  /-- manual branch: do install / build / deploy exit zero. -/
  installOk : Bool
  buildOk : Bool
  deployOk : Bool

/-- The deploy-mode branch of `deployToCloudflare` (both arms catch their own
failures).  The success log of the manual chain says "netlify" in the source
(a copy-paste artifact), kept verbatim. -/
def cloudflareBranchEvents (pm : PM) (packageName : String) (destination : FilePath2)
    (connected : Bool) (env : CloudflareEnv) : List Event :=
  if connected then
    [Event.exec ("wrangler pages project create " ++ packageName) none] ++
    (if env.projectCreateOk then [Event.logInfo "Cloudflare pages project set up successfully."]
     else [Event.logError "Failed to set up continuous deployment to Cloudflare pages:"])
  else
    [Event.logInfo ("Starting packages installation and build on " ++ pathStr destination),
      Event.exec (packageManagerCommands pm).install (some destination)] ++
    (if !env.installOk then [Event.logError "Failed to deploy to Cloudflare pages:"]
     else
      [Event.exec (packageManagerCommands pm).build (some destination)] ++
      (if !env.buildOk then [Event.logError "Failed to deploy to Cloudflare pages:"]
       else
        [Event.logInfo "Installation and build completed successfully. Starting netlify deployment...",
          Event.exec "wrangler pages deploy dist" (some destination)] ++
        (if env.deployOk then [Event.logInfo "Deployment to Cloudflare pages completed successfully."]
         else [Event.logError "Failed to deploy to Cloudflare pages:"])))

/-- cloudflare.js `deployToCloudflare`: logs, calls `ensureWranglerCLI()` with
NO argument (faithful to the source call site), then — were that call ever to
return — would ensure GitHub linkage and branch between continuous setup and
manual deploy.  Unlike the Netlify driver, the body contains no rewrite of the
`HOSTING_SERVICE` configuration constant.  Since `ensureWranglerCLI` always
throws and the call is not wrapped in try/catch, the thrown error propagates
out of `deployToCloudflare` on every invocation. -/
def deployToCloudflare (fuel : Nat) (pm : PM) (packageName : String) (destination : FilePath2)
    (env : CloudflareEnv) : Option (List Event × ProcResult Unit) :=
  let evs := [Event.logInfo "Deploying to Cloudflare pages..."]
  let w := ensureWranglerCLI none
  let evs := evs ++ w.1
  match w.2 with
  | ProcResult.threw m => some (evs, ProcResult.threw m)
  | ProcResult.exited c => some (evs, ProcResult.exited c)
  | ProcResult.ok _ =>
    match ensureConnectedToGitHub fuel packageName destination env.ghEnv with
    | none => none
    | some (gevs, ProcResult.exited c) => some (evs ++ gevs, ProcResult.exited c)
    | some (gevs, ProcResult.threw m) => some (evs ++ gevs, ProcResult.threw m)
    | some (gevs, ProcResult.ok connected) =>
      let evs := evs ++ gevs ++
        [Event.logInfo "Starting cloudflare pages deployment, it could take some seconds."] ++
        cloudflareBranchEvents pm packageName destination connected env
      some (evs, ProcResult.ok ())

/-- JavaScript object field write `obj[k] = v` on the insertion-ordered field
list: an existing key keeps its position, a new key is appended at the end. -/
def setKey : Manifest → String → JsonVal → Manifest
  | [], k, v => [(k, v)]
  | p :: rest, k, v => if p.1 = k then (k, v) :: rest else p :: setKey rest k v

/-- JavaScript `delete obj[k]`: drop the binding of `k`, keeping field order. -/
def delKey : Manifest → String → Manifest
  | [], _ => []
  | p :: rest, k => if p.1 = k then delKey rest k else p :: delKey rest k

/-- Field lookup on the parsed manifest. -/
def getKey : Manifest → String → Option JsonVal
  | [], _ => none
  | p :: rest, k => if p.1 = k then some p.2 else getKey rest k

/-- cli.js lines 139–152 (inside `main`): rewrite the parsed `package.json`.
If `packageName` is truthy (a non-empty string) overwrite `name`; reset
`version` to "0.0.1"; set `author` to the resolved git author; delete the
template-only fields `bin`, `files`, `main`, `repository`, `homepage`,
`bugs`. -/
def personalizePackageData (packageData : Manifest) (packageName : String)
    (author : String) : Manifest :=
  let d := if packageName ≠ "" then setKey packageData "name" (JsonVal.str packageName)
    else packageData
  let d := setKey d "version" (JsonVal.str "0.0.1")
  let d := setKey d "author" (JsonVal.str author)
  let d := delKey d "bin"
  let d := delKey d "files"
  let d := delKey d "main"
  let d := delKey d "repository"
  let d := delKey d "homepage"
  let d := delKey d "bugs"
  d

/-- git.js `getGitAuthorName`: captures `git config user.name` (oracle carries
the already-trimmed name); on failure warns and falls back to "your name". -/
def getGitAuthorName (gitAuthor : Except String String) : List Event × String :=
  match gitAuthor with
  | Except.ok name => ([Event.exec "git config user.name" none], name)
  | Except.error _ =>
    ([Event.exec "git config user.name" none, Event.logWarn "Failed to get git user name:"],
      "your name")

/-- The hosting choice offered by the cli.js prompt. -/
inductive Publish where
  | netlify
  | cloudflarePages
  | deployManually
deriving DecidableEq, Repr

/-- Oracles for cli.js `main` beyond those of the nested drivers. -/
structure MainEnv where
  /-- result of `<pm> --version` for `ensurePackageManagerInstalled`. -/
  versionExec : Except String String
  /-- does the bootstrap install of a missing manager exit zero. -/
  installBootOk : Bool
  /-- does the destination already exist. -/
  destExists : Bool
  /-- `fs.readdir(destination)` when it exists. -/
  destFiles : List String
  /-- answer to the overwrite confirm. -/
  confirmOverwrite : Bool
  /-- which of the three lock files exist in the destination. -/
  lockFileExists : String → Bool
  /-- does `<destination>/node_modules` exist. -/
  nodeModulesExists : Bool
  /-- does `<destination>/.gitignore_include` exist after the copy. -/
  gitignoreIncludeExists : Bool
  /-- readFile + `JSON.parse` of `<destination>/package.json`; a parse failure
  throws out of the step (fatal for the run). -/
  manifestParse : Except String Manifest
  /-- captured `git config user.name`. -/
  gitAuthor : Except String String
  netlifyEnv : NetlifyEnv
  cloudflareEnv : CloudflareEnv
  /-- does the orchestrator-level dependency install exit zero. -/
  installOk : Bool
  /-- selected additional packages. -/
  additionalPackages : List String
  /-- does the additional-package install exit zero. -/
  addOk : Bool
  /-- answer to the run-project confirm. -/
  runProject : Bool
  /-- does the dev command exit zero. -/
  devOk : Bool

/-- cli.js lines 90–122: ensure the destination exists or is safely reusable.
Returns the events plus whether the run proceeds (`false` = user declined the
overwrite and `main` returns after "Aborted"). -/
def destinationStep (destination : String) (env : MainEnv) : List Event × Bool :=
  if !env.destExists then ([Event.fsMkdir [destination]], true)
  else if (env.destFiles.filter (fun f => f ≠ ".git")).length > 0 then
    let evs := [Event.prompt ("The directory " ++ destination ++
      " is not empty. Are you sure you want to proceed and overwrite its contents?")]
    if !env.confirmOverwrite then (evs ++ [Event.logInfo "Aborted. Exiting..."], false)
    else
      let lockEvs := ["package-lock.json", "yarn.lock", "pnpm-lock.yaml"].flatMap
        (fun lf => if env.lockFileExists lf then
          [Event.fsUnlink [destination, lf], Event.logInfo ("Removed " ++ lf)]
          else [])
      let nmEvs := if env.nodeModulesExists then
        [Event.fsDeleteDir [destination, "node_modules"], Event.logInfo "Removed node_modules"]
        else []
      (evs ++ lockEvs ++ nmEvs, true)
  else ([], true)

/-- cli.js lines 169–216: install dependencies in the destination, offer the
additional packages, display the welcome message, and optionally run the dev
command.  Both `execSync` install calls run outside any local try/catch, so a
non-zero exit throws to the top-level handler of `main`. -/
def installAndFinish (pm : PM) (destination : String) (env : MainEnv) :
    List Event × ProcResult Unit :=
  let evs := [Event.logInfo ("Starting packages installation " ++ destination),
    Event.exec (packageManagerCommands pm).install (some [destination])]
  if !env.installOk then (evs, ProcResult.threw "Error: package install failed")
  else
    let evs := evs ++ [Event.logInfo ("Packages installed successfully in " ++ destination),
      Event.prompt "Which additional packages would you like to install?"]
    let addStep : List Event × ProcResult Unit :=
      if env.additionalPackages.length > 0 then
        let pkgs := String.intercalate " " env.additionalPackages
        let aevs := [Event.logInfo ("Installing additional packages: " ++ pkgs ++ " in " ++ destination),
          Event.exec ((packageManagerCommands pm).add ++ " " ++ pkgs) (some [destination])]
        if !env.addOk then (aevs, ProcResult.threw "Error: additional package install failed")
        else (aevs ++ [Event.logInfo ("Additional packages installed successfully in " ++ destination)],
          ProcResult.ok ())
      else ([], ProcResult.ok ())
    match addStep with
    | (aevs, ProcResult.threw m) => (evs ++ aevs, ProcResult.threw m)
    | (aevs, ProcResult.exited c) => (evs ++ aevs, ProcResult.exited c)
    | (aevs, ProcResult.ok _) =>
      let evs := evs ++ aevs ++ [Event.welcome,
        Event.prompt ("Do you want to run the project locally? (" ++
          (packageManagerCommands pm).dev ++ ")")]
      if env.runProject then
        let evs := evs ++ [Event.exec (packageManagerCommands pm).dev (some [destination])]
        if !env.devOk then (evs, ProcResult.threw "Error: dev command failed")
        else (evs, ProcResult.ok ())
      else
        -- `else if (publishProject)`: the prompt answer is always one of three
        -- non-empty strings, hence always truthy.
        (evs ++ [Event.logInfo ("You can run " ++ (packageManagerCommands pm).dev ++ " in " ++
            destination ++ " whenever you are ready."),
          Event.logInfo "Congratulations! Your project is set up and ready to go!",
          Event.logInfo "Next steps:",
          Event.logInfo ("1. Dive into the code in " ++ destination ++ " to start building."),
          Event.logInfo "2. Check the documentation or README for more detailed instructions.",
          Event.logInfo "3. If you have any issues or questions, consult the community forums or support.",
          Event.logInfo "Happy coding!"], ProcResult.ok ())

/-- The body of cli.js `main` inside its top-level `try`: prompts, package
manager check, destination handling, template materialization, ignore-file
restore, manifest personalization, the deployment switch (note: BEFORE the
dependency install), then install-and-finish.  `none` means the unbounded
repository-name retry loop ran past the fuel. -/
def mainBody (packageName destination : String) (pm : PM) (publish : Publish)
    (env : MainEnv) (fuel : Nat) : Option (List Event × ProcResult Unit) :=
  let evs := [Event.prompt "How would you like to name your package?",
    Event.prompt "Where would you like to create the new project?",
    Event.prompt "Which package manager would you like to use?",
    Event.prompt "Where do you want to deploy your project?"]
  let e := ensurePackageManagerInstalled pm env.versionExec env.installBootOk
  let evs := evs ++ e.1
  match e.2 with
  | ProcResult.threw m => some (evs, ProcResult.threw m)
  | ProcResult.exited c => some (evs, ProcResult.exited c)
  | ProcResult.ok _ =>
    let d := destinationStep destination env
    let evs := evs ++ d.1
    if !d.2 then some (evs, ProcResult.ok ())
    else
      let evs := evs ++ [Event.fsCopyTemplate ["<rootDir>", "templates", "starter"] [destination]]
      let evs := evs ++ (if env.gitignoreIncludeExists then
        [Event.fsRename [destination, ".gitignore_include"] [destination, ".gitignore"]] else [])
      let evs := evs ++ [Event.fsRead [destination, "package.json"]]
      match env.manifestParse with
      | Except.error m => some (evs, ProcResult.threw m)
      | Except.ok packageData =>
        let a := getGitAuthorName env.gitAuthor
        let newData := personalizePackageData packageData packageName a.2
        let evs := evs ++ a.1 ++ [Event.fsWriteJson [destination, "package.json"] newData,
          Event.logInfo ("Project initialized in " ++ destination)]
        let driver : Option (List Event × ProcResult Unit) :=
          match publish with
          | Publish.netlify => deployToNetlify fuel pm packageName [destination] env.netlifyEnv
          | Publish.cloudflarePages =>
            deployToCloudflare fuel pm packageName [destination] env.cloudflareEnv
          | Publish.deployManually => some ([], ProcResult.ok ())
        match driver with
        | none => none
        | some (devs, ProcResult.threw m) => some (evs ++ devs, ProcResult.threw m)
        | some (devs, ProcResult.exited c) => some (evs ++ devs, ProcResult.exited c)
        | some (devs, ProcResult.ok _) =>
          let f := installAndFinish pm destination env
          some (evs ++ devs ++ f.1, f.2)

/-- cli.js `main`: the body wrapped in the single top-level catch, which turns
any exception that reached it into a logged "Failed to create the project"
message and a normal return; `process.exit` terminations bypass the catch. -/
def mainRun (packageName destination : String) (pm : PM) (publish : Publish)
    (env : MainEnv) (fuel : Nat) : Option (List Event × ProcResult Unit) :=
  match mainBody packageName destination pm publish env fuel with
  | none => none
  | some (evs, ProcResult.threw m) =>
    some (evs ++ [Event.logError ("Failed to create the project: " ++ m)], ProcResult.ok ())
  | some r => some r

/-- fileUtils.js `dirExclusions`: directory basenames never copied. -/
def dirExclusions : List String := ["node_modules", "bin", ".git", ".astro"]

/-- fileUtils.js `fileExclusions`: file basenames never copied. -/
def fileExclusions : List String := [".DS_Store", ".git"]

mutual
/-- A filesystem tree: a file with byte content, or a directory. -/
inductive FSTree where
  | file (content : List Nat)
  | dir (children : FSList)
/-- The named entries of a directory.  A real directory cannot contain two
entries of the same name; the representation is more permissive, and the
theorems that need uniqueness assume `nodupTree`. -/
inductive FSList where
  | nil
  | cons (name : String) (child : FSTree) (rest : FSList)
end

/-- Directory entry lookup by name. -/
def getChild : FSList → String → Option FSTree
  | FSList.nil, _ => none
  | FSList.cons m t rest, n => if m = n then some t else getChild rest n

/-- Write-back of the destination entry `n` after one child copy: a `some`
result replaces the first existing binding of `n` (or appends a new one);
a `none` result (the child stayed absent) leaves the directory unchanged. -/
def updateChild : FSList → String → Option FSTree → FSList
  | d, _, none => d
  | FSList.nil, n, some t => FSList.cons n t FSList.nil
  | FSList.cons m t rest, n, some t2 =>
    if m = n then FSList.cons m t2 rest
    else FSList.cons m t (updateChild rest n (some t2))

mutual
/-- fileUtils.js `copyRecursive(src, dest)`, as a transformer of the
destination node.  `name` is `path.basename(src)`; `src` the source subtree;
`dest` the current destination node at the same path (`none` = absent).
Faithful behaviour:
* an excluded basename (directory or file exclusion list, by the kind of the
  SOURCE entry) returns before copying anything;
* a file copy overwrites the destination file, but `fs.copyFile` onto an
  existing directory fails (EISDIR) — the error is caught and logged, leaving
  the destination unchanged;
* a directory copy does `fs.mkdir(dest, recursive)` — a no-op on an existing
  directory, but EEXIST on an existing file, again caught, leaving the
  destination unchanged — then copies each child in order into the existing
  destination directory (a merge). -/
def copyRecursive (name : String) (src : FSTree) (dest : Option FSTree) : Option FSTree :=
  match src with
  | FSTree.file c =>
    if fileExclusions.contains name then dest
    else match dest with
      | some (FSTree.dir d) => some (FSTree.dir d)
      | _ => some (FSTree.file c)
  | FSTree.dir ch =>
    if dirExclusions.contains name then dest
    else match dest with
      | some (FSTree.file c0) => some (FSTree.file c0)
      | some (FSTree.dir d) => some (FSTree.dir (copyChildren ch d))
      | none => some (FSTree.dir (copyChildren ch FSList.nil))

/-- The `for (const child of children)` loop of `copyRecursive`: fold the copy
of each source child over the destination directory contents. -/
def copyChildren : FSList → FSList → FSList
  | FSList.nil, d => d
  | FSList.cons n c rest, d =>
    copyChildren rest (updateChild d n (copyRecursive n c (getChild d n)))
end

/-- The entry names of a directory listing. -/
def namesOf : FSList → List String
  | FSList.nil => []
  | FSList.cons n _ rest => n :: namesOf rest

mutual
/-- Well-formedness of a source tree: every directory's entry names are
pairwise distinct (as on a real filesystem). -/
def nodupTree : FSTree → Bool
  | FSTree.file _ => true
  | FSTree.dir ch => nodupList ch
def nodupList : FSList → Bool
  | FSList.nil => true
  | FSList.cons n c rest =>
    !((namesOf rest).contains n) && nodupTree c && nodupList rest
end

/-- Is this entry name excluded for this kind of node (directory names checked
against `dirExclusions`, file names against `fileExclusions`)? -/
def exclFor (n : String) : FSTree → Bool
  | FSTree.file _ => fileExclusions.contains n
  | FSTree.dir _ => dirExclusions.contains n

mutual
/-- No entry anywhere in the tree has an excluded basename. -/
def noExcl : FSTree → Bool
  | FSTree.file _ => true
  | FSTree.dir ch => noExclList ch
def noExclList : FSList → Bool
  | FSList.nil => true
  | FSList.cons n c rest => !(exclFor n c) && noExcl c && noExclList rest
end

/-- `noExcl` lifted to an optional node (an absent node is trivially clean). -/
def noExclO : Option FSTree → Bool
  | none => true
  | some t => noExcl t

/-- The node reached by a path of entry names. -/
def getNode : List String → FSTree → Option FSTree
  | [], t => some t
  | _ :: _, FSTree.file _ => none
  | n :: p, FSTree.dir ch =>
    match getChild ch n with
    | none => none
    | some c => getNode p c

/-- The byte content of the file at a path, when the path leads to a file. -/
def getFileContent (p : List String) (t : FSTree) : Option (List Nat) :=
  match getNode p t with
  | some (FSTree.file c) => some c
  | _ => none

/-- `getFileContent` lifted to an optional node. -/
def getFileContentO (p : List String) : Option FSTree → Option (List Nat)
  | none => none
  | some t => getFileContent p t

/-- The trace component of an optional run result. -/
def traceOf {α : Type} (o : Option (List Event × ProcResult α)) : List Event :=
  match o with
  | some r => r.1
  | none => []

/-- Is this event an `exec` of an external command? -/
def isExecEvent : Event → Bool
  | Event.exec _ _ => true
  | _ => false

/-- Is this event a write to the `consts.ts` configuration file (the
`HOSTING_SERVICE` rewrite target)? -/
def isConstsWrite : Event → Bool
  | Event.fsWrite p _ => p.getLast? == some "consts.ts"
  | _ => false

/-- Did `ensureConnectedToGitHub` return normally (with either linkage
outcome) on these inputs? -/
def ghReturnsOk (fuel : Nat) (packageName : String) (destination : FilePath2)
    (env : GitHubEnv) : Bool :=
  match ensureConnectedToGitHub fuel packageName destination env with
  | some (_, ProcResult.ok _) => true
  | _ => false

/-- Does `p` match strictly before `q` in the trace? -/
def occursBeforeB (p q : Event → Bool) (tr : List Event) : Bool :=
  match tr.findIdx? p, tr.findIdx? q with
  | some i, some j => decide (i < j)
  | _, _ => false

/-- The first two events of `pushToGitHub` after a failed first push. -/
def pushFailHead (destination : FilePath2) : List Event :=
  [Event.exec "git push -u origin main" (some destination),
    Event.logError "Failed to push to GitHub:"]

/-- The full trace of `pushToGitHub` when the first push failed and the retry
push was attempted: one synchronous creation attempt between the two pushes. -/
def pushRetryEvents (packageName : String) (destination : FilePath2)
    (createOk : String → Bool) : List Event :=
  pushFailHead destination ++ createGitHubRepoSyncEvents packageName createOk ++
    [Event.exec "git push -u origin main" (some destination)]

/-- The trace extension when the retry push also failed: error log plus the
continue-anyway confirm. -/
def pushFailTail : List Event :=
  [Event.logError "Failed to create repository and push:",
    Event.prompt "Failed to push changes to github, do you want to continue anyway?"]

/-- The C6 example manifest from the spec: the template manifest with all
publish-only fields present (non-string values carried as opaque nodes). -/
def exampleManifest : Manifest :=
  [("name", JsonVal.str "tpl"), ("version", JsonVal.str "1.2.3"),
    ("bin", JsonVal.node 0), ("files", JsonVal.node 1), ("main", JsonVal.str "x"),
    ("repository", JsonVal.node 2), ("homepage", JsonVal.str "h"),
    ("bugs", JsonVal.node 3)]

/-- Prompt answers for a GitHub username query that succeeds at once. -/
def okUserEnv (username : String) : UserEnv :=
  { apiUser := Except.ok username, authChoice := false, authApiUser := Except.error "unused" }

/-- Scenario for the name-collision retry: creating "demo" fails, the user
resubmits "demo-2", which succeeds; everything else is benign and the final
push succeeds. -/
def collisionEnv : GitHubEnv :=
  { isGitRepo := true, remoteOriginUrl := Except.error "no remote",
    ghExec := Except.ok "gh version 2.0.0", ghMissingExit := false,
    createOk := fun n => n == "demo-2", repoNameAnswers := ["demo-2"],
    userEnv := okUserEnv "zank", originExists := false,
    pushOk := fun _ => true, confirmContinue := true }

/-- The trace of `ensureConnectedToGitHub` in the collision scenario. -/
def collisionTrace : List Event :=
  traceOf (ensureConnectedToGitHub 5 "demo" ["demo"] collisionEnv)

/-- A benign already-linked GitHub environment: the destination is a git repo
whose `origin` already points at github.com, so no repository is created and
the push succeeds. -/
def linkedGhEnv (username : String) : GitHubEnv :=
  { isGitRepo := true, remoteOriginUrl := Except.ok "https://github.com/zank/app.git",
    ghExec := Except.ok "gh version 2.0.0", ghMissingExit := false,
    createOk := fun _ => true, repoNameAnswers := [],
    userEnv := okUserEnv username, originExists := true,
    pushOk := fun _ => true, confirmContinue := true }

/-- A Netlify-driver environment in which every step succeeds: netlify-cli is
installed on demand, linkage is already present, `netlify init` succeeds, and
the consts file reads as `content`. -/
def okNetlifyEnv (username content : String) : NetlifyEnv :=
  { listExec := Except.error "not installed", globalAddOk := true,
    deleteFunctionsOk := true, ghEnv := linkedGhEnv username, initOk := true,
    installOk := true, buildOk := true, deployOk := true,
    constsRead := Except.ok content }

/-- A Cloudflare-driver environment (all fields feed unreachable code). -/
def anyCloudflareEnv : CloudflareEnv :=
  { ghEnv := linkedGhEnv "zank", projectCreateOk := true,
    installOk := true, buildOk := true, deployOk := true }

/-- An orchestrator environment for a fresh destination in which every step
succeeds: the package manager is installed, the destination does not exist,
the manifest parses to `m`, the git author resolves to `author`, the Netlify
driver runs against `okNetlifyEnv`, and the user declines to run the project. -/
def okMainEnv (author username content : String) (m : Manifest) : MainEnv :=
  { versionExec := Except.ok "9.0.0", installBootOk := true,
    destExists := false, destFiles := [], confirmOverwrite := true,
    lockFileExists := fun _ => false, nodeModulesExists := false,
    gitignoreIncludeExists := true, manifestParse := Except.ok m,
    gitAuthor := Except.ok author, netlifyEnv := okNetlifyEnv username content,
    cloudflareEnv := anyCloudflareEnv, installOk := true,
    additionalPackages := [], addOk := true, runProject := false, devOk := true }

/-- The four orchestrator prompts followed by the fresh-destination mkdir. -/
def scenarioPreEvents (destination : String) : List Event :=
  [Event.prompt "How would you like to name your package?",
    Event.prompt "Where would you like to create the new project?",
    Event.prompt "Which package manager would you like to use?",
    Event.prompt "Where do you want to deploy your project?",
    Event.fsMkdir [destination]]

/-- The manifest-personalization step events of the successful scenario:
read, author query, write-back, completion log. -/
def scenarioPersonalizeEvents (packageName destination author : String) (m : Manifest) :
    List Event :=
  [Event.fsRead [destination, "package.json"],
    Event.exec "git config user.name" none,
    Event.fsWriteJson [destination, "package.json"] (personalizePackageData m packageName author),
    Event.logInfo ("Project initialized in " ++ destination)]

/-- A consts.ts content whose `HOSTING_SERVICE` assignment is set to "none"
(the template's shipped value). -/
def sampleConsts : String :=
  "// site constants\n" ++ hostingAssign "none" ++ "\n"

/-- The orchestrator trace of the concrete successful Netlify scenario
(package "demo", destination "app", npm, hosting choice Netlify). -/
def c2Trace : List Event :=
  traceOf (mainRun "demo" "app" PM.npm Publish.netlify
    (okMainEnv "Jane" "zank" sampleConsts exampleManifest) 1)

/-- Recognizes the orchestrator-level dependency install of the concrete
scenario. -/
def isMainInstallEv (e : Event) : Bool :=
  e == Event.exec "npm install" (some ["app"])

/-- Recognizes the first event of the Netlify driver. -/
def isNetlifyStartEv (e : Event) : Bool :=
  e == Event.logInfo "Deploying to Netlify..."

/-- A small well-formed source tree containing excluded entries
(a `node_modules` directory and a `.DS_Store` file) next to regular files. -/
def sampleTree : FSTree :=
  FSTree.dir (FSList.cons "a.txt" (FSTree.file [1, 2])
    (FSList.cons "node_modules" (FSTree.dir (FSList.cons "x" (FSTree.file [3]) FSList.nil))
      (FSList.cons ".DS_Store" (FSTree.file [9])
        (FSList.cons "sub" (FSTree.dir (FSList.cons "b.txt" (FSTree.file [4]) FSList.nil))
          FSList.nil))))

theorem listHasSub_false_afterFirst (hay needle : List Char)
    (h : listHasSub hay needle = false) : afterFirst hay needle = none := by
  induction hay with
  | nil =>
    unfold listHasSub at h
    unfold afterFirst
    by_cases hp : listIsPreOf needle [] = true
    · rw [if_pos hp] at h; cases h
    · rw [if_neg hp]
  | cons c cs ih =>
    unfold listHasSub at h
    unfold afterFirst
    by_cases hp : listIsPreOf needle (c :: cs) = true
    · rw [if_pos hp] at h; cases h
    · rw [if_neg hp] at h
      rw [if_neg hp]
      exact ih h

/-- C10: for every command string, `isCommandAvailable` returns a boolean and
never throws: a failing invoked command is mapped to `false`, and a failure of
the global-list special handling — a global-list command (such as yarn's
`yarn global list`) containing no `-g` token, whose `split("-g")[1].trim()`
throws — is caught and mapped to `false`. -/
theorem isCommandAvailable_never_throws :
    (∀ (command e : String), isCommandAvailable command (Except.error e) = false) ∧
    (∀ (command output : String), jsIncludes command "yarn global list" = true →
      jsIncludes command "-g" = false →
      isCommandAvailable command (Except.ok output) = false) := by
  constructor
  · intro command e; rfl
  · intro command output h1 h2
    unfold jsIncludes at h2
    unfold isCommandAvailable isCommandAvailableBody
    rw [h1]
    simp only [Bool.or_true, if_true]
    rw [listHasSub_false_afterFirst _ _ h2]

theorem isCommandAvailable_never_throws_witness :
    jsIncludes "yarn global list wrangler" "yarn global list" = true ∧
    jsIncludes "yarn global list wrangler" "-g" = false ∧
    isCommandAvailable "yarn global list wrangler" (Except.ok "wrangler 3.9") = false :=
  ⟨by decide, by decide,
    isCommandAvailable_never_throws.2 "yarn global list wrangler" "wrangler 3.9"
      (by decide) (by decide)⟩

/-- C9: the claim says that when the selected manager is npm and it is not
installed, the function reports an actionable message and returns without
throwing.  The code instead calls the undefined identifier `error(...)` in that
branch (only `log` is in scope in pkg.js), so the call throws a
`ReferenceError` that propagates to the caller: evaluating the embedded
function at the failing input yields the thrown result. -/
theorem ensurePackageManagerInstalled_npm_missing_throws (e : String) (installExecOk : Bool) :
    ensurePackageManagerInstalled PM.npm (Except.error e) installExecOk =
      ([Event.logInfo "The selected package manager npm is not installed. Attempting to install..."],
        ProcResult.threw "ReferenceError: error is not defined") := rfl

/-- C1: the claim says neither driver ever lets a failure escape the driver
boundary.  The code contradicts it: `deployToCloudflare` invokes
`ensureWranglerCLI()` (whose body references `isCommandAvailable`, an
identifier cloudflare.js never imports) outside any try/catch, so on EVERY
invocation the driver throws a `ReferenceError` past its boundary after its
first log line — deployment aborts and, in `main`, the top-level catch ends
the run before the dependency install. -/
theorem deployToCloudflare_always_throws (fuel : Nat) (pm : PM) (packageName : String)
    (destination : FilePath2) (env : CloudflareEnv) :
    deployToCloudflare fuel pm packageName destination env =
      some ([Event.logInfo "Deploying to Cloudflare pages..."],
        ProcResult.threw "ReferenceError: isCommandAvailable is not defined") := rfl

/-- C4: the claim says the repository name embedded in the `origin` remote URL
equals the last accepted (resubmitted) name.  In the collision scenario —
creating "demo" fails once, the user resubmits "demo-2", which succeeds — the
run completes, both creation attempts appear in the trace, but the remote URL
added is built from the ORIGINAL name "demo" (the retry loop's final name is
local to `createGitHubRepo` and never returned), and no "demo-2" URL is ever
used. -/
theorem collision_retry_remote_url_uses_original_name :
    (match ensureConnectedToGitHub 5 "demo" ["demo"] collisionEnv with
      | some (_, ProcResult.ok true) => true
      | _ => false) = true ∧
    Event.exec "gh repo create demo --public" none ∈ collisionTrace ∧
    Event.exec "gh repo create demo-2 --public" none ∈ collisionTrace ∧
    Event.exec "git remote add origin https://github.com/zank/demo.git" (some ["demo"]) ∈
      collisionTrace ∧
    Event.exec "git remote add origin https://github.com/zank/demo-2.git" (some ["demo"]) ∉
      collisionTrace := by
  refine ⟨by decide, by decide, by decide, by decide, by decide⟩

/-- C5: on a failed first push, `pushToGitHub` performs exactly one fallback:
a single (synchronous) remote-creation attempt — the retry loop never runs
before the retry push — followed by a second push; if that push succeeds the
function returns `true`; if it fails, the user is prompted, and answering No
exits the process with code 1 while answering Yes returns the not-linked
`false` result. -/
theorem pushToGitHub_single_fallback (packageName : String) (destination : FilePath2)
    (pushOk : Nat → Bool) (createOk : String → Bool) (confirmContinue : Bool)
    (h : pushOk 0 = false) :
    ((createGitHubRepoSyncEvents packageName createOk).countP isExecEvent = 1) ∧
    (pushOk 1 = true →
      pushToGitHub packageName destination pushOk createOk confirmContinue =
        (pushRetryEvents packageName destination createOk, ProcResult.ok true)) ∧
    (pushOk 1 = false → confirmContinue = true →
      pushToGitHub packageName destination pushOk createOk confirmContinue =
        (pushRetryEvents packageName destination createOk ++ pushFailTail,
          ProcResult.ok false)) ∧
    (pushOk 1 = false → confirmContinue = false →
      pushToGitHub packageName destination pushOk createOk confirmContinue =
        (pushRetryEvents packageName destination createOk ++ pushFailTail ++
          [Event.logInfo "Aborted. Exiting..."], ProcResult.exited 1)) := by
  refine ⟨?_, ?_, ?_, ?_⟩
  · cases hc : createOk packageName <;>
      simp [createGitHubRepoSyncEvents, hc, isExecEvent, List.countP_cons, List.countP_nil]
  · intro h1
    simp [pushToGitHub, pushRetryEvents, pushFailHead, h, h1]
  · intro h1 h2
    simp [pushToGitHub, pushRetryEvents, pushFailHead, pushFailTail, h, h1, h2]
  · intro h1 h2
    simp [pushToGitHub, pushRetryEvents, pushFailHead, pushFailTail, h, h1, h2]

theorem pushToGitHub_single_fallback_witness :
    pushToGitHub "demo" ["app"] (fun _ => false) (fun _ => true) true =
      (pushRetryEvents "demo" ["app"] (fun _ => true) ++ pushFailTail,
        ProcResult.ok false) :=
  (pushToGitHub_single_fallback "demo" ["app"] (fun _ => false) (fun _ => true) true
    rfl).2.2.1 rfl rfl

theorem getKey_setKey_ne (m : Manifest) (k k2 : String) (v : JsonVal) (h : k ≠ k2) :
    getKey (setKey m k2 v) k = getKey m k := by
  have h2 : ¬(k2 = k) := fun hh => h hh.symm
  induction m with
  | nil =>
    simp [setKey, getKey, h2]
  | cons p rest ih =>
    by_cases hp : p.1 = k2
    · have h3 : ¬(p.1 = k) := by rw [hp]; exact h2
      simp [setKey, hp, getKey, h2, h3]
    · simp only [setKey, if_neg hp, getKey]
      by_cases hk : p.1 = k
      · simp [hk]
      · simp [hk, ih]

theorem getKey_delKey_ne (m : Manifest) (k k2 : String) (h : k ≠ k2) :
    getKey (delKey m k2) k = getKey m k := by
  induction m with
  | nil => rfl
  | cons p rest ih =>
    by_cases hp : p.1 = k2
    · have h3 : ¬(p.1 = k) := by rw [hp]; exact fun hh => h hh.symm
      simp only [delKey, if_pos hp, getKey, if_neg h3]
      exact ih
    · simp only [delKey, if_neg hp, getKey]
      by_cases hk : p.1 = k
      · simp [hk]
      · simp only [if_neg hk]
        exact ih

/-- C6: personalizing the spec's example manifest with name "my-app" and
author "Jane" yields exactly `{name: "my-app", version: "0.0.1",
author: "Jane"}`; and in general every original key outside the deletion list
`{bin, files, main, repository, homepage, bugs}` and distinct from
`name`/`version`/`author` is retained with its original value. -/
theorem personalize_manifest_exact :
    (personalizePackageData exampleManifest "my-app" "Jane" =
      [("name", JsonVal.str "my-app"), ("version", JsonVal.str "0.0.1"),
        ("author", JsonVal.str "Jane")]) ∧
    (∀ (m : Manifest) (newName author k : String),
      k ≠ "bin" → k ≠ "files" → k ≠ "main" → k ≠ "repository" → k ≠ "homepage" →
      k ≠ "bugs" → k ≠ "name" → k ≠ "version" → k ≠ "author" →
      getKey (personalizePackageData m newName author) k = getKey m k) := by
  constructor
  · decide
  · intro m newName author k h1 h2 h3 h4 h5 h6 h7 h8 h9
    simp only [personalizePackageData]
    rw [getKey_delKey_ne _ _ _ h6, getKey_delKey_ne _ _ _ h5, getKey_delKey_ne _ _ _ h4,
      getKey_delKey_ne _ _ _ h3, getKey_delKey_ne _ _ _ h2, getKey_delKey_ne _ _ _ h1,
      getKey_setKey_ne _ _ _ _ h9, getKey_setKey_ne _ _ _ _ h8]
    split
    · exact getKey_setKey_ne _ _ _ _ h7
    · rfl

theorem personalize_manifest_exact_witness :
    getKey (personalizePackageData [("license", JsonVal.str "MIT")] "my-app" "Jane")
        "license" =
      getKey [("license", JsonVal.str "MIT")] "license" :=
  personalize_manifest_exact.2 [("license", JsonVal.str "MIT")] "my-app" "Jane" "license"
    (by decide) (by decide) (by decide) (by decide) (by decide) (by decide) (by decide)
    (by decide) (by decide)

/-- C3 counterexample: the claim as stated quantifies over BOTH drivers, but
the Cloudflare driver rewrites nothing: at this concrete invocation it throws
at its first step, and its trace contains zero writes to the configuration
file (its body contains no rewrite step at all). -/
theorem deployToCloudflare_no_rewrite_counterexample :
    deployToCloudflare 1 PM.npm "demo" ["app"] anyCloudflareEnv =
      some ([Event.logInfo "Deploying to Cloudflare pages..."],
        ProcResult.threw "ReferenceError: isCommandAvailable is not defined") ∧
    (traceOf (deployToCloudflare 1 PM.npm "demo" ["app"] anyCloudflareEnv)).countP
        isConstsWrite = 0 :=
  ⟨rfl, rfl⟩


theorem updateChild_none : ∀ (d : FSList) (n : String), updateChild d n none = d
  | FSList.nil, _ => rfl
  | FSList.cons _ _ _, _ => rfl

theorem getChild_updateChild_some_same : ∀ (d : FSList) (n : String) (t : FSTree),
    getChild (updateChild d n (some t)) n = some t
  | FSList.nil, n, t => by simp [updateChild, getChild]
  | FSList.cons m t0 rest, n, t => by
    by_cases hm : m = n
    · simp [updateChild, hm, getChild]
    · simp [updateChild, hm, getChild, getChild_updateChild_some_same rest n t]

theorem getChild_updateChild_ne : ∀ (d : FSList) (n m : String) (r : Option FSTree),
    m ≠ n → getChild (updateChild d n r) m = getChild d m
  | d, n, m, none, _ => by rw [updateChild_none]
  | FSList.nil, n, m, some t, h => by
    simp [updateChild, getChild, Ne.symm h]
  | FSList.cons k t0 rest, n, m, some t, h => by
    by_cases hk : k = n
    · simp [updateChild, hk, getChild, Ne.symm h]
    · by_cases hm2 : k = m
      · simp [updateChild, hk, getChild, hm2, h]
      · simp [updateChild, hk, getChild, hm2,
          getChild_updateChild_ne rest n m (some t) h]

theorem updateChild_getChild_self : ∀ (d : FSList) (n : String),
    updateChild d n (getChild d n) = d
  | FSList.nil, _ => rfl
  | FSList.cons m t rest, n => by
    by_cases hm : m = n
    · simp [getChild, hm, updateChild]
    · simp only [getChild, if_neg hm]
      cases hr : getChild rest n with
      | none => rw [updateChild_none]
      | some t2 =>
        simp only [updateChild, if_neg hm]
        rw [← hr, updateChild_getChild_self rest n]

theorem copyRecursive_none_imp (n : String) (c : FSTree) (x : Option FSTree)
    (h : copyRecursive n c x = none) : x = none := by
  cases c with
  | file cc =>
    by_cases hex : n ∈ fileExclusions
    · simpa [copyRecursive, hex] using h
    · cases x with
      | none => rfl
      | some t => cases t <;> simp [copyRecursive, hex] at h
  | dir ch =>
    by_cases hex : n ∈ dirExclusions
    · simpa [copyRecursive, hex] using h
    · cases x with
      | none => simp [copyRecursive, hex] at h
      | some t => cases t <;> simp [copyRecursive, hex] at h

theorem getChild_after_upd (d : FSList) (n : String) (c : FSTree) :
    getChild (updateChild d n (copyRecursive n c (getChild d n))) n =
      copyRecursive n c (getChild d n) := by
  cases hres : copyRecursive n c (getChild d n) with
  | none =>
    rw [updateChild_none]
    exact copyRecursive_none_imp n c (getChild d n) hres
  | some t => rw [getChild_updateChild_some_same]

theorem getChild_some_contains : ∀ (d : FSList) (m : String) (t : FSTree),
    getChild d m = some t → (namesOf d).contains m = true
  | FSList.nil, m, t, h => by simp [getChild] at h
  | FSList.cons k t0 rest, m, t, h => by
    by_cases hk : k = m
    · simp [namesOf, hk, List.contains_cons]
    · simp only [getChild, if_neg hk] at h
      have hr := getChild_some_contains rest m t h
      simp only [namesOf, List.contains_cons, Bool.or_eq_true]
      exact Or.inr hr

theorem getChild_copyChildren_notmem : ∀ (ch : FSList) (d : FSList) (m : String),
    (namesOf ch).contains m = false → getChild (copyChildren ch d) m = getChild d m
  | FSList.nil, d, m, _ => rfl
  | FSList.cons n c rest, d, m, h => by
    simp only [namesOf, List.contains_cons, Bool.or_eq_false_iff,
      beq_eq_false_iff_ne] at h
    simp only [copyChildren]
    rw [getChild_copyChildren_notmem rest _ m (by simpa using h.2)]
    exact getChild_updateChild_ne _ _ _ _ h.1

mutual
theorem copyRecursive_idem_aux : ∀ (n : String) (c : FSTree) (x : Option FSTree),
    nodupTree c = true → copyRecursive n c (copyRecursive n c x) = copyRecursive n c x
  | n, FSTree.file cc, x, _ => by
    by_cases hex : n ∈ fileExclusions
    · simp [copyRecursive, hex]
    · cases x with
      | none => simp [copyRecursive, hex]
      | some t => cases t <;> simp [copyRecursive, hex]
  | n, FSTree.dir ch, x, h => by
    have hch : nodupList ch = true := by simpa [nodupTree] using h
    by_cases hex : n ∈ dirExclusions
    · simp [copyRecursive, hex]
    · cases x with
      | none =>
        simp [copyRecursive, hex, copyChildren_idem_aux ch FSList.nil hch]
      | some t =>
        cases t with
        | file c0 => simp [copyRecursive, hex]
        | dir d => simp [copyRecursive, hex, copyChildren_idem_aux ch d hch]

theorem copyChildren_idem_aux : ∀ (ch d : FSList), nodupList ch = true →
    copyChildren ch (copyChildren ch d) = copyChildren ch d
  | FSList.nil, d, _ => rfl
  | FSList.cons n c rest, d, h => by
    have hn : (namesOf rest).contains n = false := by
      simp only [nodupList, Bool.and_eq_true, Bool.not_eq_true'] at h
      exact h.1.1
    have hc : nodupTree c = true := by
      simp only [nodupList, Bool.and_eq_true] at h
      exact h.1.2
    have hrest : nodupList rest = true := by
      simp only [nodupList, Bool.and_eq_true] at h
      exact h.2
    simp only [copyChildren]
    have hge2 : getChild (updateChild d n (copyRecursive n c (getChild d n))) n =
        copyRecursive n c (getChild d n) := getChild_after_upd d n c
    set e := updateChild d n (copyRecursive n c (getChild d n)) with he
    have hge : getChild (copyChildren rest e) n = getChild e n :=
      getChild_copyChildren_notmem rest e n hn
    have key : updateChild (copyChildren rest e) n
        (copyRecursive n c (getChild (copyChildren rest e) n)) = copyChildren rest e := by
      rw [hge, hge2, copyRecursive_idem_aux n c (getChild d n) hc, ← hge2, ← hge]
      exact updateChild_getChild_self (copyChildren rest e) n
    rw [key]
    exact copyChildren_idem_aux rest e hrest
end

/-- C8: `copyRecursive` is idempotent: for every well-formed source tree (no
directory of a real filesystem lists the same entry name twice) and every
destination state, running the copy twice yields the same destination tree as
running it once. -/
theorem copyRecursive_idempotent (name : String) (src : FSTree) (dest : Option FSTree)
    (h : nodupTree src = true) :
    copyRecursive name src (copyRecursive name src dest) = copyRecursive name src dest :=
  copyRecursive_idem_aux name src dest h

theorem copyRecursive_idempotent_witness :
    nodupTree sampleTree = true ∧
    copyRecursive "starter" sampleTree (copyRecursive "starter" sampleTree none) =
      copyRecursive "starter" sampleTree none :=
  ⟨rfl, copyRecursive_idempotent "starter" sampleTree none rfl⟩

theorem noExclList_getChild : ∀ (d : FSList) (n : String) (t : FSTree),
    noExclList d = true → getChild d n = some t →
    exclFor n t = false ∧ noExcl t = true
  | FSList.nil, n, t, _, hg => by simp [getChild] at hg
  | FSList.cons m t0 rest, n, t, hd, hg => by
    simp only [noExclList, Bool.and_eq_true, Bool.not_eq_true'] at hd
    by_cases hm : m = n
    · simp only [getChild, if_pos hm] at hg
      cases hg
      exact ⟨hm ▸ hd.1.1, hd.1.2⟩
    · simp only [getChild, if_neg hm] at hg
      exact noExclList_getChild rest n t hd.2 hg

theorem noExclList_updateChild : ∀ (d : FSList) (n : String) (t : FSTree),
    noExclList d = true → exclFor n t = false → noExcl t = true →
    noExclList (updateChild d n (some t)) = true
  | FSList.nil, n, t, _, hx, ht => by
    simp [updateChild, noExclList, hx, ht]
  | FSList.cons m t0 rest, n, t, hd, hx, ht => by
    simp only [noExclList, Bool.and_eq_true, Bool.not_eq_true'] at hd
    by_cases hm : m = n
    · simp only [updateChild, if_pos hm, noExclList, Bool.and_eq_true, Bool.not_eq_true']
      exact ⟨⟨hm ▸ hx, ht⟩, hd.2⟩
    · simp only [updateChild, if_neg hm, noExclList, Bool.and_eq_true, Bool.not_eq_true']
      exact ⟨hd.1, noExclList_updateChild rest n t hd.2 hx ht⟩

mutual
theorem noExcl_upd_copy : ∀ (n : String) (c : FSTree) (d : FSList),
    noExclList d = true →
    noExclList (updateChild d n (copyRecursive n c (getChild d n))) = true
  | n, FSTree.file cc, d, hd => by
    by_cases hex : n ∈ fileExclusions
    · have : copyRecursive n (FSTree.file cc) (getChild d n) = getChild d n := by
        simp [copyRecursive, hex]
      rw [this, updateChild_getChild_self]
      exact hd
    · have hxf : exclFor n (FSTree.file cc) = false := by
        simpa [exclFor] using hex
      cases hg : getChild d n with
      | none =>
        have : copyRecursive n (FSTree.file cc) none = some (FSTree.file cc) := by
          simp [copyRecursive, hex]
        rw [this]
        exact noExclList_updateChild d n _ hd hxf rfl
      | some t =>
        cases t with
        | dir d0 =>
          have : copyRecursive n (FSTree.file cc) (some (FSTree.dir d0)) =
              some (FSTree.dir d0) := by simp [copyRecursive, hex]
          rw [this, ← hg, updateChild_getChild_self]
          exact hd
        | file c0 =>
          have : copyRecursive n (FSTree.file cc) (some (FSTree.file c0)) =
              some (FSTree.file cc) := by simp [copyRecursive, hex]
          rw [this]
          exact noExclList_updateChild d n _ hd hxf rfl
  | n, FSTree.dir ch, d, hd => by
    by_cases hex : n ∈ dirExclusions
    · have : copyRecursive n (FSTree.dir ch) (getChild d n) = getChild d n := by
        simp [copyRecursive, hex]
      rw [this, updateChild_getChild_self]
      exact hd
    · have hxd : dirExclusions.contains n = false := by simpa using hex
      cases hg : getChild d n with
      | none =>
        have : copyRecursive n (FSTree.dir ch) none =
            some (FSTree.dir (copyChildren ch FSList.nil)) := by simp [copyRecursive, hex]
        rw [this]
        exact noExclList_updateChild d n _ hd (by simpa [exclFor] using hex)
          (by simpa [noExcl] using copyChildren_noExcl_aux ch FSList.nil rfl)
      | some t =>
        cases t with
        | file c0 =>
          have : copyRecursive n (FSTree.dir ch) (some (FSTree.file c0)) =
              some (FSTree.file c0) := by simp [copyRecursive, hex]
          rw [this, ← hg, updateChild_getChild_self]
          exact hd
        | dir d0 =>
          have hsub := noExclList_getChild d n (FSTree.dir d0) hd hg
          have : copyRecursive n (FSTree.dir ch) (some (FSTree.dir d0)) =
              some (FSTree.dir (copyChildren ch d0)) := by simp [copyRecursive, hex]
          rw [this]
          exact noExclList_updateChild d n _ hd (by simpa [exclFor] using hex)
            (by
              have hd0 : noExclList d0 = true := by simpa [noExcl] using hsub.2
              simpa [noExcl] using copyChildren_noExcl_aux ch d0 hd0)

theorem copyChildren_noExcl_aux : ∀ (ch d : FSList), noExclList d = true →
    noExclList (copyChildren ch d) = true
  | FSList.nil, d, hd => hd
  | FSList.cons n c rest, d, hd => by
    simp only [copyChildren]
    exact copyChildren_noExcl_aux rest _ (noExcl_upd_copy n c d hd)
end

theorem getFileContent_cons (m : String) (p : List String) (l : FSList) :
    getFileContent (m :: p) (FSTree.dir l) = getFileContentO p (getChild l m) := by
  cases hg : getChild l m with
  | none => simp [getFileContent, getNode, hg, getFileContentO]
  | some c => simp [getFileContent, getNode, hg, getFileContentO]

mutual
theorem copyRecursive_content_aux : ∀ (n : String) (c : FSTree) (x : Option FSTree)
    (p : List String) (bs : List Nat), nodupTree c = true →
    getFileContentO p (copyRecursive n c x) = some bs →
    getFileContent p c = some bs ∨ getFileContentO p x = some bs
  | n, FSTree.file cc, x, p, bs, _, hget => by
    by_cases hex : n ∈ fileExclusions
    · right; simpa [copyRecursive, hex] using hget
    · cases x with
      | some t =>
        cases t with
        | dir d => right; simpa [copyRecursive, hex] using hget
        | file c0 =>
          left
          cases p with
          | nil =>
            simpa [copyRecursive, hex, getFileContentO, getFileContent, getNode] using hget
          | cons q p2 =>
            simp [copyRecursive, hex, getFileContentO, getFileContent, getNode] at hget
      | none =>
        left
        cases p with
        | nil =>
          simpa [copyRecursive, hex, getFileContentO, getFileContent, getNode] using hget
        | cons q p2 =>
          simp [copyRecursive, hex, getFileContentO, getFileContent, getNode] at hget
  | n, FSTree.dir ch, x, p, bs, h, hget => by
    have hch : nodupList ch = true := by simpa [nodupTree] using h
    by_cases hex : n ∈ dirExclusions
    · right; simpa [copyRecursive, hex] using hget
    · cases x with
      | some t =>
        cases t with
        | file c0 => right; simpa [copyRecursive, hex] using hget
        | dir d =>
          cases p with
          | nil => simp [copyRecursive, hex, getFileContentO, getFileContent, getNode] at hget
          | cons m p2 =>
            have hget2 : getFileContentO p2 (getChild (copyChildren ch d) m) = some bs := by
              rw [← getFileContent_cons]
              simpa [copyRecursive, hex, getFileContentO] using hget
            rcases copyChildren_content_aux ch d m p2 bs hch hget2 with ⟨t, hg, hcont⟩ | hin
            · left
              rw [getFileContent_cons, hg]
              simpa [getFileContentO] using hcont
            · right
              simpa [getFileContentO, getFileContent_cons] using hin
      | none =>
        cases p with
        | nil => simp [copyRecursive, hex, getFileContentO, getFileContent, getNode] at hget
        | cons m p2 =>
          have hget2 : getFileContentO p2 (getChild (copyChildren ch FSList.nil) m) = some bs := by
            rw [← getFileContent_cons]
            simpa [copyRecursive, hex, getFileContentO] using hget
          rcases copyChildren_content_aux ch FSList.nil m p2 bs hch hget2 with ⟨t, hg, hcont⟩ | hin
          · left
            rw [getFileContent_cons, hg]
            simpa [getFileContentO] using hcont
          · simp [getChild, getFileContentO] at hin

theorem copyChildren_content_aux : ∀ (ch d : FSList) (m : String) (p : List String)
    (bs : List Nat), nodupList ch = true →
    getFileContentO p (getChild (copyChildren ch d) m) = some bs →
    (∃ t, getChild ch m = some t ∧ getFileContent p t = some bs) ∨
    getFileContentO p (getChild d m) = some bs
  | FSList.nil, d, m, p, bs, _, hget => Or.inr hget
  | FSList.cons k c rest, d, m, p, bs, h, hget => by
    have hk : (namesOf rest).contains k = false := by
      simp only [nodupList, Bool.and_eq_true, Bool.not_eq_true'] at h
      exact h.1.1
    have hc : nodupTree c = true := by
      simp only [nodupList, Bool.and_eq_true] at h
      exact h.1.2
    have hrest : nodupList rest = true := by
      simp only [nodupList, Bool.and_eq_true] at h
      exact h.2
    simp only [copyChildren] at hget
    rcases copyChildren_content_aux rest _ m p bs hrest hget with ⟨t, hg, hcont⟩ | hin
    · have hmk : ¬(k = m) := by
        intro hh
        have hcm := getChild_some_contains rest m t hg
        rw [← hh] at hcm
        rw [hcm] at hk
        cases hk
      left
      exact ⟨t, by simp [getChild, hmk, hg], hcont⟩
    · by_cases hm : k = m
      · subst hm
        rw [getChild_after_upd d k c] at hin
        rcases copyRecursive_content_aux k c (getChild d k) p bs hc hin with hl | hr
        · left
          exact ⟨c, by simp [getChild], hl⟩
        · right; exact hr
      · right
        rwa [getChild_updateChild_ne d k m _ (fun hh => hm (Eq.symm hh))] at hin
end

/-- C7: for every well-formed source tree, copying into a fresh (absent)
destination yields a tree in which no directory entry bears a
`dirExclusions` basename and no file entry bears a `fileExclusions` basename
(excluded entries are skipped wholesale, so nothing of their contents
appears), and every file found in the result carries exactly the byte content
of the file at the same path in the source. -/
theorem copyRecursive_excludes_and_preserves (name : String) (src : FSTree)
    (h : nodupTree src = true) :
    noExclO (copyRecursive name src none) = true ∧
    (∀ (p : List String) (bs : List Nat),
      getFileContentO p (copyRecursive name src none) = some bs →
      getFileContent p src = some bs) := by
  constructor
  · cases src with
    | file cc =>
      by_cases hex : name ∈ fileExclusions <;> simp [copyRecursive, hex, noExclO, noExcl]
    | dir ch =>
      by_cases hex : name ∈ dirExclusions
      · simp [copyRecursive, hex, noExclO]
      · simpa [copyRecursive, hex, noExclO, noExcl] using
          copyChildren_noExcl_aux ch FSList.nil rfl
  · intro p bs hget
    rcases copyRecursive_content_aux name src none p bs h hget with hl | hr
    · exact hl
    · simp [getFileContentO] at hr

theorem copyRecursive_excludes_and_preserves_witness :
    nodupTree sampleTree = true ∧
    noExclO (copyRecursive "starter" sampleTree none) = true ∧
    getFileContent ["sub", "b.txt"] sampleTree = some [4] :=
  ⟨rfl, (copyRecursive_excludes_and_preserves "starter" sampleTree rfl).1,
    (copyRecursive_excludes_and_preserves "starter" sampleTree rfl).2
      ["sub", "b.txt"] [4] rfl⟩

theorem isConstsWrite_toml (destination : FilePath2) (s : String) :
    isConstsWrite (Event.fsWrite (destination ++ ["netlify.toml"]) s) = false := by
  simp only [isConstsWrite]
  rw [List.getLast?_append_of_ne_nil _ (by simp)]
  decide

theorem isConstsWrite_consts (destination : FilePath2) (s : String) :
    isConstsWrite (Event.fsWrite (destination ++ ["src", "consts.ts"]) s) = true := by
  simp only [isConstsWrite]
  rw [List.getLast?_append_of_ne_nil _ (by simp)]
  decide

theorem countP_consts_getGitHubUsername (env : UserEnv) :
    (getGitHubUsername env).1.countP isConstsWrite = 0 := by
  unfold getGitHubUsername
  cases h : env.apiUser with
  | ok login => simp [isConstsWrite]
  | error e =>
    cases hb : env.authChoice with
    | false => simp [isConstsWrite]
    | true =>
      cases h2 : env.authApiUser with
      | ok l2 => simp [isConstsWrite]
      | error e2 => simp [isConstsWrite]

theorem countP_consts_createRepo : ∀ (fuel : Nat) (n : String) (ok : String → Bool)
    (ans : List String) (evs : List Event), createGitHubRepo fuel n ok ans = some evs →
    evs.countP isConstsWrite = 0
  | 0, n, ok, ans, evs, h => by simp [createGitHubRepo] at h
  | Nat.succ fuel, n, ok, ans, evs, h => by
    simp only [createGitHubRepo] at h
    by_cases hc : ok n = true
    · rw [if_pos hc] at h
      cases h
      simp [isConstsWrite]
    · rw [if_neg hc] at h
      cases hrec : createGitHubRepo fuel (ans.headD (n ++ "-retry")) ok ans.tail with
      | none => rw [hrec] at h; cases h
      | some more =>
        rw [hrec] at h
        cases h
        simp [List.countP_append, isConstsWrite,
          countP_consts_createRepo fuel _ ok ans.tail more hrec]

theorem countP_consts_sync (n : String) (ok : String → Bool) :
    (createGitHubRepoSyncEvents n ok).countP isConstsWrite = 0 := by
  unfold createGitHubRepoSyncEvents
  by_cases hc : ok n = true <;> simp [hc, isConstsWrite]

theorem countP_consts_push (n : String) (dest : FilePath2) (pushOk : Nat → Bool)
    (ok : String → Bool) (cc : Bool) :
    (pushToGitHub n dest pushOk ok cc).1.countP isConstsWrite = 0 := by
  unfold pushToGitHub
  by_cases h0 : pushOk 0 = true <;> by_cases h1 : pushOk 1 = true <;> cases cc <;>
    simp [h0, h1, List.countP_append, isConstsWrite, countP_consts_sync]

theorem countP_consts_tail (n : String) (dest : FilePath2) (env : GitHubEnv) :
    (ensureConnectedTail n dest env).1.countP isConstsWrite = 0 := by
  unfold ensureConnectedTail
  by_cases ho : env.originExists = true <;>
    simp [ho, List.countP_append, isConstsWrite, countP_consts_push,
      countP_consts_getGitHubUsername]

theorem countP_consts_ensureConnected (fuel : Nat) (n : String) (dest : FilePath2)
    (env : GitHubEnv) (r : List Event × ProcResult Bool)
    (h : ensureConnectedToGitHub fuel n dest env = some r) :
    r.1.countP isConstsWrite = 0 := by
  simp only [ensureConnectedToGitHub] at h
  by_cases hc : isRepoConnectedToGitHub env.remoteOriginUrl = true
  · simp only [hc, if_true] at h
    cases h
    by_cases hg : env.isGitRepo = true <;>
      simp [hg, List.countP_append, isConstsWrite, countP_consts_tail]
  · simp only [hc, if_false, Bool.false_eq_true] at h
    by_cases hcli : isCommandAvailable "gh" env.ghExec = true
    · simp only [hcli, Bool.not_true, Bool.false_eq_true, if_false] at h
      cases hcr : createGitHubRepo fuel n env.createOk env.repoNameAnswers with
      | none => rw [hcr] at h; cases h
      | some cEvs =>
        rw [hcr] at h
        cases h
        by_cases hg : env.isGitRepo = true <;>
          simp [hg, List.countP_append, isConstsWrite, countP_consts_tail,
            countP_consts_createRepo fuel n env.createOk env.repoNameAnswers cEvs hcr]
    · simp only [Bool.not_eq_true] at hcli
      simp only [hcli, Bool.not_false, if_true] at h
      by_cases hex : env.ghMissingExit = true <;> simp only [hex, if_true, if_false] at h <;>
        cases h <;> by_cases hg : env.isGitRepo = true <;>
        simp [hg, List.countP_append, isConstsWrite]

theorem countP_consts_netlifyCLI (pm : PM) (l : Except String String) (g : Bool) :
    (ensureNetlifyCLI pm l g).1.countP isConstsWrite = 0 := by
  unfold ensureNetlifyCLI
  by_cases hc : isCommandAvailable ((packageManagerCommands pm).list ++ " -g netlify-cli") l =
      true <;> cases g <;> simp [hc, isConstsWrite]

theorem countP_consts_branch (pm : PM) (dest : FilePath2) (connected : Bool)
    (env : NetlifyEnv) :
    (netlifyBranchEvents pm dest connected env).countP isConstsWrite = 0 := by
  unfold netlifyBranchEvents
  cases connected <;> by_cases h1 : env.initOk = true <;> by_cases h2 : env.installOk = true <;>
    by_cases h3 : env.buildOk = true <;> by_cases h4 : env.deployOk = true <;>
    simp [h1, h2, h3, h4, List.countP_append, isConstsWrite]

/-- C3 (amended): only the Netlify driver records the hosting choice.  When the
Netlify driver's pre-steps succeed (the netlify-cli step does not throw, the
linkage state machine returns normally, and the consts file is readable), it
finishes normally having performed EXACTLY ONE rewrite of the `HOSTING_SERVICE`
constant, by literal textual substitution of the matched assignment; when the
expected pattern is absent the substitution leaves the content unchanged and
the driver still completes (non-fatal).  The Cloudflare driver performs no
rewrite of the constant on any invocation. -/
theorem netlify_rewrites_hosting_constant_once
    (fuel : Nat) (pm : PM) (packageName : String) (destination : FilePath2)
    (env : NetlifyEnv) (content : String) (gevs : List Event) (b : Bool)
    (hRead : env.constsRead = Except.ok content)
    (hCli : (ensureNetlifyCLI pm env.listExec env.globalAddOk).2 = ProcResult.ok ())
    (hGh : ensureConnectedToGitHub fuel packageName destination env.ghEnv =
      some (gevs, ProcResult.ok b)) :
    (∃ tr, deployToNetlify fuel pm packageName destination env = some (tr, ProcResult.ok ()) ∧
      tr.countP isConstsWrite = 1 ∧
      Event.fsWrite (destination ++ ["src", "consts.ts"])
        (replaceHostingService content "netlify") ∈ tr) ∧
    (findHosting content.data = none → replaceHostingService content "netlify" = content) ∧
    (∀ (fuel2 : Nat) (pm2 : PM) (pn2 : String) (dest2 : FilePath2) (cfEnv : CloudflareEnv),
      (traceOf (deployToCloudflare fuel2 pm2 pn2 dest2 cfEnv)).countP isConstsWrite = 0) := by
  refine ⟨?_, ?_, ?_⟩
  · rcases hne : ensureNetlifyCLI pm env.listExec env.globalAddOk with ⟨cevs, cres⟩
    rw [hne] at hCli
    simp only at hCli
    subst hCli
    simp only [deployToNetlify, hne, hGh, hRead]
    by_cases hdel : env.deleteFunctionsOk = true <;>
      simp only [hdel, if_true, if_false, Bool.false_eq_true] <;>
      refine ⟨_, rfl, ?_, ?_⟩ <;>
      simp [List.countP_append, isConstsWrite_toml, isConstsWrite_consts, isConstsWrite,
        countP_consts_branch, countP_consts_ensureConnected fuel packageName destination
          env.ghEnv (gevs, ProcResult.ok b) hGh,
        (by rw [hne] : (ensureNetlifyCLI pm env.listExec env.globalAddOk).1 = cevs) ▸
          countP_consts_netlifyCLI pm env.listExec env.globalAddOk]
  · intro h
    simp [replaceHostingService, h]
  · intro fuel2 pm2 pn2 dest2 cfEnv
    rfl

theorem netlify_rewrites_hosting_constant_once_witness :
    ∃ tr, deployToNetlify 1 PM.npm "demo" ["app"] (okNetlifyEnv "zank" sampleConsts) =
        some (tr, ProcResult.ok ()) ∧
      tr.countP isConstsWrite = 1 ∧
      Event.fsWrite (["app"] ++ ["src", "consts.ts"])
        (replaceHostingService sampleConsts "netlify") ∈ tr :=
  (netlify_rewrites_hosting_constant_once 1 PM.npm "demo" ["app"]
    (okNetlifyEnv "zank" sampleConsts) sampleConsts
    [Event.logInfo "Pushing all local changes to github.",
      Event.exec "git add ." (some ["app"]),
      Event.exec "git commit -m \"Initial commit\" --allow-empty" (some ["app"]),
      Event.exec "gh api user" none,
      Event.logInfo "Searching for the origin repo.",
      Event.exec "git remote get-url origin" (some ["app"]),
      Event.exec "git push -u origin main" (some ["app"])] true
    rfl rfl rfl).1

/-- C2 counterexample: in the concrete successful Netlify run (package "demo",
destination "app", npm), the dependency-install command is NOT invoked before
the deployment driver — the driver events strictly precede the install
invocation in the orchestrator trace. -/
theorem main_install_not_before_deploy_counterexample :
    occursBeforeB isMainInstallEv isNetlifyStartEv c2Trace = false ∧
    occursBeforeB isNetlifyStartEv isMainInstallEv c2Trace = true :=
  ⟨by decide, by decide⟩

/-- C2 (amended): in every successful run of the orchestrator (exhibited here
for the family of Netlify runs with all steps succeeding, over arbitrary
package name, destination, author, username, consts content, manifest, package
manager and retry fuel) the steps occur in the order: materialize template,
restore ignore-file name, personalize manifest, run the deployment driver,
THEN install dependencies — the dependency-install command is invoked after
the deployment driver, not before. -/
theorem main_step_order (packageName destination author username content : String)
    (m : Manifest) (pm : PM) (fuel : Nat) :
    mainRun packageName destination pm Publish.netlify
        (okMainEnv author username content m) fuel =
      some (scenarioPreEvents destination ++
        [Event.fsCopyTemplate ["<rootDir>", "templates", "starter"] [destination]] ++
        [Event.fsRename [destination, ".gitignore_include"] [destination, ".gitignore"]] ++
        scenarioPersonalizeEvents packageName destination author m ++
        traceOf (deployToNetlify fuel pm packageName [destination]
          (okNetlifyEnv username content)) ++
        (installAndFinish pm destination (okMainEnv author username content m)).1,
        ProcResult.ok ()) ∧
    (traceOf (deployToNetlify fuel pm packageName [destination]
        (okNetlifyEnv username content))).head? =
      some (Event.logInfo "Deploying to Netlify...") ∧
    (installAndFinish pm destination (okMainEnv author username content m)).1.take 2 =
      [Event.logInfo ("Starting packages installation " ++ destination),
        Event.exec (packageManagerCommands pm).install (some [destination])] :=
  ⟨rfl, rfl, rfl⟩
